import Mathlib

/-!
Verification of the RL-Villiage simulation core against its specification.

Shallow embedding notes:
* Python floats are modelled as rationals (`ℚ`); all arithmetic in the
  modelled code paths is clamping/min/max/linear, so `ℚ` is exact.
* Python dicts keyed by enum types are modelled as total functions with
  default value `0` (absent key ↔ value `0`), except where key *presence*
  is semantically observable (agent skill dicts), which use `Option`.
* `sum(dict.values())` is modelled as a sum over the full (finite) key list.
-/

namespace Village

/-- The `ResourceType` enum from `src/environment/resources.py`. -/
inductive ResourceType where
  | WOOD | STONE | IRON | FOOD_BERRY | FOOD_FISH | FOOD_WHEAT | WATER
  | CLAY | TREE | STONE_BLOCK | IRON_ORE | IRON_INGOT | HERB
  | BASIC_TOOLS | WEAPONS | ADVANCED_TOOLS | POTION
  deriving DecidableEq, Repr

/-- All members of the `ResourceType` enum, in declaration order. -/
def allResourceTypes : List ResourceType :=
  [.WOOD, .STONE, .IRON, .FOOD_BERRY, .FOOD_FISH, .FOOD_WHEAT, .WATER,
   .CLAY, .TREE, .STONE_BLOCK, .IRON_ORE, .IRON_INGOT, .HERB,
   .BASIC_TOOLS, .WEAPONS, .ADVANCED_TOOLS, .POTION]

/-- `ResourceType.is_raw_resource` from `resources.py`. -/
def isRawResource (t : ResourceType) : Bool :=
  match t with
  | .TREE | .STONE | .IRON_ORE | .FOOD_BERRY | .FOOD_FISH | .FOOD_WHEAT
  | .WATER | .CLAY | .HERB => true
  | _ => false

/-- The storage facility subclasses in `src/environment/storage.py`
(`base` is a plain `StorageFacility`). -/
inductive FacilityKind where
  | base | warehouse | granary | stockpile | armory
  deriving DecidableEq, Repr

/-- State of a `StorageFacility`: its subclass, scalar capacity shared by
all resource types, and the `resources` dict (absent key ↔ 0). -/
structure Facility where
  kind : FacilityKind
  capacity : ℚ
  resources : ResourceType → ℚ

/-- A freshly constructed facility: empty `resources` dict. -/
def Facility.mk0 (k : FacilityKind) (cap : ℚ) : Facility :=
  ⟨k, cap, fun _ => 0⟩

/-- `sum(self.resources.values())` in `StorageFacility`. -/
def Facility.sumRes (f : Facility) : ℚ :=
  (allResourceTypes.map f.resources).sum

/-- `StorageFacility.get_available_capacity`. -/
def Facility.availCap (f : Facility) : ℚ :=
  max 0 (f.capacity - f.sumRes)

/-- `StorageFacility.add_resource` (the base-class method): clamp the
requested amount to the remaining shared capacity, add it to the entry for
`ty`, and return the amount actually added. -/
def Facility.baseAdd (f : Facility) (ty : ResourceType) (amount : ℚ) :
    ℚ × Facility :=
  let currentTotal := f.sumRes
  let availableSpace := max 0 (f.capacity - currentTotal)
  let canAdd := min amount availableSpace
  (canAdd, { f with resources := Function.update f.resources ty (f.resources ty + canAdd) })

/-- `StorageFacility.remove_resource`: clamp to the held amount; the entry
is only written when the removed amount is positive (deleting a zeroed
entry is identified with storing `0`). -/
def Facility.baseRemove (f : Facility) (ty : ResourceType) (amount : ℚ) :
    ℚ × Facility :=
  let available := f.resources ty
  let canRemove := min amount available
  if 0 < canRemove then
    (canRemove, { f with resources := Function.update f.resources ty (available - canRemove) })
  else
    (canRemove, f)

/-- The `Granary.add_resource` override's accepted types. -/
def granaryAccepts (t : ResourceType) : Bool :=
  match t with
  | .FOOD_WHEAT | .FOOD_BERRY | .FOOD_FISH => true
  | _ => false

/-- The `Armory.add_resource` override's accepted types. -/
def armoryAccepts (t : ResourceType) : Bool :=
  match t with
  | .WEAPONS | .BASIC_TOOLS | .ADVANCED_TOOLS => true
  | _ => false

/-- Virtual dispatch of `add_resource` over the facility subclasses:
`Granary`, `Stockpile` and `Armory` reject out-of-policy types with `0`,
`Warehouse` and the base class add unconditionally. -/
def Facility.addResource (f : Facility) (ty : ResourceType) (amount : ℚ) :
    ℚ × Facility :=
  match f.kind with
  | .base | .warehouse => f.baseAdd ty amount
  | .granary => if granaryAccepts ty then f.baseAdd ty amount else (0, f)
  | .stockpile => if isRawResource ty then f.baseAdd ty amount else (0, f)
  | .armory => if armoryAccepts ty then f.baseAdd ty amount else (0, f)

/-- One recorded call of `StorageFacility.add_resource`: the facility state
before the call, the `(type, amount)` arguments, the returned amount and
the state after the call. -/
structure AddCall where
  before : Facility
  ty : ResourceType
  amount : ℚ
  ret : ℚ
  after : Facility

/-- The trace of a sequence of base-class `add_resource` calls. -/
def addTrace (f : Facility) : List (ResourceType × ℚ) → List AddCall
  | [] => []
  | c :: rest =>
    let r := f.baseAdd c.1 c.2
    ⟨f, c.1, c.2, r.1, r.2⟩ :: addTrace r.2 rest

lemma allResourceTypes_nodup : allResourceTypes.Nodup := by decide

lemma mem_allResourceTypes (t : ResourceType) : t ∈ allResourceTypes := by
  cases t <;> decide

/-- Summing a pointwise-updated map over a duplicate-free list containing
the updated key shifts the sum by the added amount. -/
lemma sum_map_update (g : ResourceType → ℚ) (ty : ResourceType) (c : ℚ) :
    ∀ l : List ResourceType, l.Nodup → ty ∈ l →
      (l.map (Function.update g ty (g ty + c))).sum = (l.map g).sum + c := by
  intro l
  induction l with
  | nil => intro _ hmem; cases hmem
  | cons y ys ih =>
    intro hnd hmem
    rcases List.nodup_cons.mp hnd with ⟨hy, hys⟩
    simp only [List.map_cons, List.sum_cons]
    rcases List.mem_cons.mp hmem with hty | hty
    · subst hty
      have hrest : ys.map (Function.update g ty (g ty + c)) = ys.map g := by
        apply List.map_congr_left
        intro a ha
        have hne : a ≠ ty := by rintro rfl; exact hy ha
        exact Function.update_noteq hne _ _
      rw [hrest, Function.update_same]
      ring
    · have hne : y ≠ ty := by rintro rfl; exact hy hty
      rw [Function.update_noteq hne, ih hys hty]
      ring

/-- Updating one entry of the resources dict shifts the stored total by the
same amount. -/
lemma sumRes_update (f : Facility) (ty : ResourceType) (c : ℚ) :
    Facility.sumRes { f with resources := Function.update f.resources ty (f.resources ty + c) }
      = f.sumRes + c :=
  sum_map_update f.resources ty c allResourceTypes allResourceTypes_nodup
    (mem_allResourceTypes ty)

/-- The total after a base-class `add_resource` call is the total before
plus the returned amount. -/
lemma baseAdd_sumRes (f : Facility) (ty : ResourceType) (a : ℚ) :
    (f.baseAdd ty a).2.sumRes = f.sumRes + (f.baseAdd ty a).1 := by
  simp only [Facility.baseAdd]
  exact sumRes_update f ty _

/-- A single base-class `add_resource` call from a state satisfying the
capacity invariant returns `min amount (capacity - total)` and preserves
the invariant; capacity is unchanged. -/
lemma baseAdd_step (f : Facility) (ty : ResourceType) (a : ℚ)
    (hinv : f.sumRes ≤ f.capacity) :
    (f.baseAdd ty a).1 = min a (f.capacity - f.sumRes) ∧
    (f.baseAdd ty a).2.sumRes ≤ f.capacity ∧
    (f.baseAdd ty a).2.capacity = f.capacity := by
  have hspace : max 0 (f.capacity - f.sumRes) = f.capacity - f.sumRes :=
    max_eq_right (by linarith)
  have hret : (f.baseAdd ty a).1 = min a (f.capacity - f.sumRes) := by
    simp only [Facility.baseAdd, hspace]
  refine ⟨hret, ?_, rfl⟩
  rw [baseAdd_sumRes, hret]
  have : min a (f.capacity - f.sumRes) ≤ f.capacity - f.sumRes := min_le_right _ _
  linarith

/-- Capacity is never modified by a base-class `add_resource` call. -/
lemma baseAdd_capacity (f : Facility) (ty : ResourceType) (a : ℚ) :
    (f.baseAdd ty a).2.capacity = f.capacity := rfl

/-- A fresh facility holds nothing. -/
lemma sumRes_mk0 (k : FacilityKind) (cap : ℚ) :
    (Facility.mk0 k cap).sumRes = 0 := by
  simp [Facility.sumRes, Facility.mk0, allResourceTypes]

/-- Every call in an `add_resource` trace starting from a state satisfying
the capacity invariant keeps the invariant and returns the clamped amount. -/
lemma addTrace_sound (cap : ℚ) :
    ∀ (calls : List (ResourceType × ℚ)) (f : Facility),
      f.capacity = cap → f.sumRes ≤ cap →
      ∀ e ∈ addTrace f calls,
        e.after.capacity = cap ∧ e.after.sumRes ≤ cap ∧
        e.ret = min e.amount (cap - e.before.sumRes) := by
  intro calls
  induction calls with
  | nil => intro f _ _ e he; cases he
  | cons c rest ih =>
    intro f hcap hinv e he
    obtain ⟨hret, hsum, hcap2⟩ := baseAdd_step f c.1 c.2 (hcap ▸ hinv)
    rcases List.mem_cons.mp he with he | he
    · subst he
      exact ⟨by rw [baseAdd_capacity, hcap], by rw [← hcap]; exact hcap ▸ hsum,
        by rw [hret, hcap]⟩
    · exact ih (f.baseAdd c.1 c.2).2 (by rw [baseAdd_capacity, hcap])
        (by rw [← hcap]; exact hsum) e he

/-- C1: for every storage facility and every sequence of non-negative
`add_resource` calls starting from a fresh (empty) facility, after each
call the stored total never exceeds the capacity, and each call returns
`min(requested amount, capacity - total before the call)`. -/
theorem C1_storageFacility_capacity_invariant (kind : FacilityKind) (cap : ℚ)
    (hcap : 0 ≤ cap) (calls : List (ResourceType × ℚ))
    (hcalls : ∀ c ∈ calls, 0 ≤ c.2) :
    ∀ e ∈ addTrace (Facility.mk0 kind cap) calls,
      e.after.sumRes ≤ cap ∧ e.ret = min e.amount (cap - e.before.sumRes) := by
  intro e he
  obtain ⟨_, hsum, hret⟩ :=
    addTrace_sound cap calls (Facility.mk0 kind cap) rfl
      (by rw [sumRes_mk0]; exact hcap) e he
  exact ⟨hsum, hret⟩

/-- C5 scenario, part that fails on the code: the spec treats `WOOD` as a
raw resource, but `ResourceType.is_raw_resource` lists `TREE` (not `WOOD`,
which is a processed resource), so an empty `Stockpile(capacity=800)`
returns `0`, not `800`, from `add_resource(WOOD, 1000)`. -/
theorem C5_counterexample :
    ¬ ((Facility.mk0 .stockpile 800).addResource ResourceType.WOOD 1000).1 = 800 := by
  norm_num [Facility.addResource, isRawResource, Facility.mk0]

/-- C5 (amended): an empty `Stockpile(capacity=800)` accepts the full
capacity of a raw resource (`add_resource(STONE, 1000)` returns `800`),
and returns `0` leaving the stored resources unchanged for any type
failing the raw-resource accept policy, e.g. `WOOD` (processed) and
`WEAPONS` (crafted). -/
theorem C5_stockpile_accept_policy :
    ((Facility.mk0 .stockpile 800).addResource ResourceType.STONE 1000).1 = 800 ∧
    ((Facility.mk0 .stockpile 800).addResource ResourceType.WOOD 1000).1 = 0 ∧
    ((Facility.mk0 .stockpile 800).addResource ResourceType.WOOD 1000).2 =
      Facility.mk0 .stockpile 800 ∧
    ((Facility.mk0 .stockpile 800).addResource ResourceType.WEAPONS 10).1 = 0 ∧
    ((Facility.mk0 .stockpile 800).addResource ResourceType.WEAPONS 10).2 =
      Facility.mk0 .stockpile 800 := by
  refine ⟨?_, ?_, rfl, ?_, rfl⟩ <;>
    norm_num [Facility.addResource, isRawResource, Facility.mk0,
      Facility.baseAdd, Facility.sumRes, allResourceTypes]

/-- Witness for C1 at a concrete facility and call sequence. -/
theorem C1_witness :
    (0 : ℚ) ≤ 800 ∧
    (∀ c ∈ ([(ResourceType.WOOD, 500), (ResourceType.STONE, 400)] :
        List (ResourceType × ℚ)), 0 ≤ c.2) ∧
    (∀ e ∈ addTrace (Facility.mk0 .warehouse 800)
        [(ResourceType.WOOD, 500), (ResourceType.STONE, 400)],
      e.after.sumRes ≤ 800 ∧ e.ret = min e.amount (800 - e.before.sumRes)) :=
  ⟨by norm_num, by decide,
   C1_storageFacility_capacity_invariant .warehouse 800 (by norm_num) _ (by decide)⟩

/-! ### Resource nodes (`Resource` in `src/environment/resources.py`) -/

/-- State of a `Resource` node relevant to extraction. -/
structure ResourceNode where
  quantity : ℚ
  maxQuantity : ℚ
  depleted : Bool

/-- `Resource.extract`: returns `0` when depleted; otherwise removes
`min(amount, quantity)` and, if the remainder is non-positive, zeroes the
quantity and sets the depleted flag. -/
def ResourceNode.extract (r : ResourceNode) (amount : ℚ) : ℚ × ResourceNode :=
  if r.depleted then (0, r)
  else
    let extractable := min amount r.quantity
    let q := r.quantity - extractable
    if q ≤ 0 then (extractable, { r with quantity := 0, depleted := true })
    else (extractable, { r with quantity := q })

/-- Unfolding lemma for `ResourceNode.extract` with the lets inlined. -/
lemma extract_def (r : ResourceNode) (a : ℚ) :
    r.extract a =
      if r.depleted then (0, r)
      else if r.quantity - min a r.quantity ≤ 0 then
        (min a r.quantity, { r with quantity := 0, depleted := true })
      else
        (min a r.quantity, { r with quantity := r.quantity - min a r.quantity }) :=
  rfl

/-- C3: for a node with non-negative quantity whose depleted flag agrees
with `quantity == 0`, extracting a non-negative amount leaves
`max 0 (quantity - amount)`, keeps the flag equal to `new quantity == 0`,
and returns the difference between old and new quantity. -/
theorem C3_resource_extract (r : ResourceNode) (a : ℚ)
    (hq : 0 ≤ r.quantity) (hd : r.depleted = true ↔ r.quantity = 0)
    (ha : 0 ≤ a) :
    (r.extract a).2.quantity = max 0 (r.quantity - a) ∧
    ((r.extract a).2.depleted = true ↔ (r.extract a).2.quantity = 0) ∧
    (r.extract a).1 = r.quantity - (r.extract a).2.quantity := by
  rw [extract_def]
  by_cases hdep : r.depleted = true
  · rw [hdep, if_pos rfl]
    have hq0 : r.quantity = 0 := hd.mp hdep
    refine ⟨?_, hd, by show (0 : ℚ) = r.quantity - r.quantity; ring⟩
    show r.quantity = max 0 (r.quantity - a)
    rw [hq0, max_eq_left (by linarith : (0 : ℚ) - a ≤ 0)]
  · have hdep2 : r.depleted = false := by
      cases hb : r.depleted
      · rfl
      · exact absurd hb hdep
    rw [hdep2, if_neg (by simp)]
    by_cases hle : r.quantity - min a r.quantity ≤ 0
    · rw [if_pos hle]
      have hqa : min a r.quantity = r.quantity :=
        le_antisymm (min_le_right _ _) (by linarith)
      have hra : r.quantity ≤ a := by
        rw [← hqa]; exact min_le_left a r.quantity
      refine ⟨?_, by simp, ?_⟩
      · show (0 : ℚ) = max 0 (r.quantity - a)
        rw [max_eq_left (by linarith : r.quantity - a ≤ 0)]
      · show min a r.quantity = r.quantity - 0
        rw [hqa]; ring
    · rw [if_neg hle]
      push_neg at hle
      have hmin : min a r.quantity = a := by
        rcases le_total a r.quantity with h | h
        · exact min_eq_left h
        · rw [min_eq_right h] at hle; linarith
      refine ⟨?_, ?_, by show min a r.quantity
        = r.quantity - (r.quantity - min a r.quantity); ring⟩
      · show r.quantity - min a r.quantity = max 0 (r.quantity - a)
        rw [hmin, max_eq_right (by rw [hmin] at hle; linarith : (0 : ℚ) ≤ r.quantity - a)]
      · show false = true ↔ r.quantity - min a r.quantity = 0
        exact iff_of_false (by simp) hle.ne'

/-- Witness for C3: a node holding 5 units, extraction request of 7. -/
theorem C3_witness :
    (0 : ℚ) ≤ 5 ∧ ((false = true) ↔ (5 : ℚ) = 0) ∧ (0 : ℚ) ≤ 7 ∧
    ((ResourceNode.extract ⟨5, 10, false⟩ 7).2.quantity = max 0 (5 - 7) ∧
     ((ResourceNode.extract ⟨5, 10, false⟩ 7).2.depleted = true ↔
       (ResourceNode.extract ⟨5, 10, false⟩ 7).2.quantity = 0) ∧
     (ResourceNode.extract ⟨5, 10, false⟩ 7).1 =
       5 - (ResourceNode.extract ⟨5, 10, false⟩ 7).2.quantity) := by
  refine ⟨by norm_num, by simp, by norm_num, ?_⟩
  exact C3_resource_extract ⟨5, 10, false⟩ 7 (by norm_num) (by simp) (by norm_num)

/-! ### Village ledger (`ResourceManager` in `src/environment/resources.py`) -/

/-- The `village_resources` dict, modelled as a total map with default 0. -/
def Ledger := ResourceType → ℚ

/-- `ResourceManager.add_to_village_storage`: unconditional increment,
returns the full amount. -/
def addToVillageStorage (led : Ledger) (ty : ResourceType) (amount : ℚ) :
    ℚ × Ledger :=
  (amount, Function.update led ty (led ty + amount))

/-- `ResourceManager.take_from_village_storage`: clamp to the available
amount; the entry is only written when the taken amount is positive. -/
def takeFromVillageStorage (led : Ledger) (ty : ResourceType) (amount : ℚ) :
    ℚ × Ledger :=
  let available := led ty
  let taken := min amount available
  if 0 < taken then (taken, Function.update led ty (available - taken))
  else (taken, led)

/-- Unfolding lemma for `takeFromVillageStorage` with the lets inlined. -/
lemma take_def (led : Ledger) (ty : ResourceType) (a : ℚ) :
    takeFromVillageStorage led ty a =
      if 0 < min a (led ty) then
        (min a (led ty), Function.update led ty (led ty - min a (led ty)))
      else (min a (led ty), led) :=
  rfl

/-- C10: deposits are unconstrained (the ledger entry grows by exactly the
requested non-negative amount, which is returned, with no upper bound) and
withdrawals are clamped (`min(amount, available)` is returned and
subtracted) and never drive a non-negative ledger entry negative. -/
theorem C10_village_ledger (led : Ledger) (ty : ResourceType) (a : ℚ)
    (ha : 0 ≤ a) (hled : ∀ t, 0 ≤ led t) :
    ((addToVillageStorage led ty a).1 = a ∧
     (addToVillageStorage led ty a).2 ty = led ty + a ∧
     (∀ t, t ≠ ty → (addToVillageStorage led ty a).2 t = led t)) ∧
    ((takeFromVillageStorage led ty a).1 = min a (led ty) ∧
     (takeFromVillageStorage led ty a).2 ty
       = led ty - (takeFromVillageStorage led ty a).1 ∧
     (∀ t, t ≠ ty → (takeFromVillageStorage led ty a).2 t = led t) ∧
     (∀ t, 0 ≤ (takeFromVillageStorage led ty a).2 t)) := by
  refine ⟨⟨rfl, Function.update_same ty _ led,
    fun t ht => Function.update_noteq ht _ _⟩, ?_⟩
  rw [take_def]
  by_cases hpos : 0 < min a (led ty)
  · rw [if_pos hpos]
    refine ⟨rfl, ?_, fun t ht => Function.update_noteq ht _ _, ?_⟩
    · show Function.update led ty (led ty - min a (led ty)) ty
        = led ty - min a (led ty)
      exact Function.update_same ty _ led
    · intro t
      show 0 ≤ Function.update led ty (led ty - min a (led ty)) t
      by_cases hteq : t = ty
      · subst hteq
        rw [Function.update_same]
        have : min a (led t) ≤ led t := min_le_right _ _
        linarith
      · rw [Function.update_noteq hteq]
        exact hled t
  · rw [if_neg hpos]
    have hzero : min a (led ty) = 0 :=
      le_antisymm (not_lt.mp hpos) (le_min ha (hled ty))
    exact ⟨rfl, by show led ty = led ty - min a (led ty); rw [hzero]; ring,
      fun t _ => rfl, hled⟩

/-- The starting village ledger set up by `generate_initial_resources`. -/
def exampleLedger : Ledger := fun t =>
  match t with
  | .WOOD => 100
  | .STONE => 50
  | .FOOD_WHEAT => 200
  | .WATER => 100
  | _ => 0

/-- Witness for C10 at a concrete ledger and amount. -/
theorem C10_witness :
    (0 : ℚ) ≤ 30 ∧ (∀ t, 0 ≤ exampleLedger t) ∧
    (((addToVillageStorage exampleLedger ResourceType.WOOD 30).1 = 30 ∧
      (addToVillageStorage exampleLedger ResourceType.WOOD 30).2 ResourceType.WOOD
        = exampleLedger ResourceType.WOOD + 30 ∧
      (∀ t, t ≠ ResourceType.WOOD →
        (addToVillageStorage exampleLedger ResourceType.WOOD 30).2 t = exampleLedger t)) ∧
     ((takeFromVillageStorage exampleLedger ResourceType.WOOD 30).1
        = min 30 (exampleLedger ResourceType.WOOD) ∧
      (takeFromVillageStorage exampleLedger ResourceType.WOOD 30).2 ResourceType.WOOD
        = exampleLedger ResourceType.WOOD
          - (takeFromVillageStorage exampleLedger ResourceType.WOOD 30).1 ∧
      (∀ t, t ≠ ResourceType.WOOD →
        (takeFromVillageStorage exampleLedger ResourceType.WOOD 30).2 t = exampleLedger t) ∧
      (∀ t, 0 ≤ (takeFromVillageStorage exampleLedger ResourceType.WOOD 30).2 t))) := by
  refine ⟨by norm_num, fun t => by cases t <;> norm_num [exampleLedger], ?_⟩
  exact C10_village_ledger exampleLedger ResourceType.WOOD 30 (by norm_num)
    (fun t => by cases t <;> norm_num [exampleLedger])

/-! ### Jobs (`src/jobs/job.py`) -/

/-- The skill names appearing in agent skill dicts and job skill-modifier
dicts across the repository. -/
inductive Skill where
  | farming | mining | woodcutting | building | crafting | trading | cooking
  | endurance | perception | strength | combat | healing | negotiation | charisma
  deriving DecidableEq, Repr

/-- Action names: the built-in survival actions of `Agent`, plus a single
stand-in for every job-specific action string. -/
inductive ActionName where
  | wander | go_home | find_food | find_water | sleeping | find_shelter
  | socialize | jobSpecific
  deriving DecidableEq, Repr

/-- Membership in the survival-action list tested by
`Job.remove_from_agent`. -/
def isSurvivalAction (a : ActionName) : Bool :=
  match a with
  | .jobSpecific => false
  | _ => true

/-- A `Job`: `id` models Python object identity (the `!=` test in
`remove_from_agent` compares references); `modifiers` is the
`skill_modifiers` dict (`none` ↔ key absent). -/
structure Job where
  id : ℕ
  modifiers : Skill → Option ℚ

/-- The agent state touched by job assignment and removal. The agent's
`skills` dict uses `none` for absent keys because `assign_to_agent`,
`remove_from_agent` and `improve_skills` all test key membership. -/
structure SkillAgent where
  skills : Skill → Option ℚ
  job : Option Job
  currentAction : Option ActionName
  actionTarget : Option ℕ
  actionProgress : ℚ

/-- The skill-boost loop of `assign_to_agent`: every skill present in both
dicts is multiplied by `(1 + modifier)`. -/
def applyModifiers (mods skills : Skill → Option ℚ) : Skill → Option ℚ :=
  fun s =>
    match skills s, mods s with
    | some v, some m => some (v * (1 + m))
    | sv, _ => sv

/-- The reversal loop of `remove_from_agent`: every skill present in both
dicts is divided by `(1 + modifier)`. -/
def unapplyModifiers (mods skills : Skill → Option ℚ) : Skill → Option ℚ :=
  fun s =>
    match skills s, mods s with
    | some v, some m => some (v / (1 + m))
    | sv, _ => sv

/-- `Job.remove_from_agent`: no-op unless the agent's job is this very
object; otherwise divide matching skills back, clear the job, and reset
any job-specific current action. -/
def removeFromAgent (j : Job) (ag : SkillAgent) : SkillAgent :=
  match ag.job with
  | none => ag
  | some oj =>
    if oj.id = j.id then
      let ag2 := { ag with skills := unapplyModifiers j.modifiers ag.skills,
                           job := none }
      match ag2.currentAction with
      | some act =>
        if isSurvivalAction act then ag2
        else { ag2 with currentAction := none, actionTarget := none,
                        actionProgress := 0 }
      | none => ag2
    else ag

/-- `Job.assign_to_agent`: remove any existing job first, then install this
job and multiply matching skills by `(1 + modifier)`. -/
def assignToAgent (j : Job) (ag : SkillAgent) : SkillAgent :=
  let ag1 :=
    match ag.job with
    | some oldJob => removeFromAgent oldJob ag
    | none => ag
  { ag1 with job := some j, skills := applyModifiers j.modifiers ag1.skills }

/-- Dividing back the modifiers undoes applying them, provided no modifier
equals `-1`. -/
lemma unapply_apply (mods skills : Skill → Option ℚ)
    (h : ∀ s m, mods s = some m → 1 + m ≠ 0) :
    unapplyModifiers mods (applyModifiers mods skills) = skills := by
  funext s
  unfold applyModifiers unapplyModifiers
  cases hm : mods s <;> cases hs : skills s <;> simp [hm, hs]
  case some.some m v => exact mul_div_cancel_right₀ v (h s m hm)

/-- Skills and job after a `remove_from_agent` call whose identity check
passes. -/
lemma removeFromAgent_eq (j oj : Job) (ag : SkillAgent)
    (hj : ag.job = some oj) (hid : oj.id = j.id) :
    (removeFromAgent j ag).skills = unapplyModifiers j.modifiers ag.skills ∧
    (removeFromAgent j ag).job = none := by
  unfold removeFromAgent
  rw [hj]
  simp only [if_pos hid]
  cases hact : ag.currentAction with
  | none => simp [hact]
  | some act =>
    simp only [hact]
    by_cases hs : isSurvivalAction act <;> simp [hs]

/-- C6 fails as universally stated: if the agent already holds a job with a
non-trivial modifier on a shared skill, `assign_to_agent` first strips the
old job's boost, so assign-then-remove of the new job does not restore the
pre-assignment skill value. Here the agent holds job `id 0` boosting
`farming` by modifier `1`, with boosted skill `4`; after assigning and
removing the modifier-free job `id 1`, `farming` is `2`, not `4`. -/
theorem C6_counterexample :
    ¬ ((removeFromAgent ⟨1, fun _ => none⟩
          (assignToAgent ⟨1, fun _ => none⟩
            ⟨fun s => if s = Skill.farming then some 4 else none,
             some ⟨0, fun s => if s = Skill.farming then some 1 else none⟩,
             none, none, 0⟩)).skills Skill.farming
        = (fun s => if s = Skill.farming then some (4 : ℚ) else none)
            Skill.farming) := by
  norm_num [removeFromAgent, assignToAgent, applyModifiers, unapplyModifiers,
    isSurvivalAction]

/-- C6 (amended): for every agent with no current job and every job none of
whose modifiers equals `-1`, assigning the job and then removing it
restores every skill to its pre-assignment value (the multiplicative boost
is exactly inverted) and leaves the agent jobless. -/
theorem C6_job_round_trip (ag : SkillAgent) (j : Job) (hjob : ag.job = none)
    (hmods : ∀ s m, j.modifiers s = some m → 1 + m ≠ 0) :
    (removeFromAgent j (assignToAgent j ag)).skills = ag.skills ∧
    (removeFromAgent j (assignToAgent j ag)).job = none := by
  have hassign : assignToAgent j ag
      = { ag with job := some j, skills := applyModifiers j.modifiers ag.skills } := by
    unfold assignToAgent
    rw [hjob]
  obtain ⟨hsk, hjb⟩ := removeFromAgent_eq j j (assignToAgent j ag)
    (by rw [hassign]) rfl
  refine ⟨?_, hjb⟩
  rw [hsk, hassign]
  exact unapply_apply j.modifiers ag.skills hmods

/-- A concrete jobless agent for the C6 witness. -/
def witnessAgent : SkillAgent :=
  ⟨fun s => if s = Skill.farming then some (1/4) else none, none,
   some .wander, none, 0⟩

/-- A concrete job for the C6 witness: the Farmer job's `farming` modifier. -/
def witnessJob : Job :=
  ⟨5, fun s => if s = Skill.farming then some (3/2) else none⟩

/-- Witness for C6 at a concrete jobless agent and a concrete job. -/
theorem C6_witness :
    (witnessAgent.job = none) ∧
    (∀ s m, witnessJob.modifiers s = some m → 1 + m ≠ 0) ∧
    ((removeFromAgent witnessJob (assignToAgent witnessJob witnessAgent)).skills
        = witnessAgent.skills ∧
     (removeFromAgent witnessJob (assignToAgent witnessJob witnessAgent)).job
        = none) := by
  refine ⟨rfl, ?_, ?_⟩
  · intro s m hm
    cases s <;> simp [witnessJob] at hm <;> rw [← hm] <;> norm_num
  · exact C6_job_round_trip witnessAgent witnessJob rfl
      (by intro s m hm
          cases s <;> simp [witnessJob] at hm <;> rw [← hm] <;> norm_num)

/-- `Job.improve_skills`: if the skill key is present, add
`amount * (1 - level * 0.5)` and clamp the result at `1.0`. -/
def improveSkills (skills : Skill → Option ℚ) (name : Skill) (amount : ℚ) :
    Skill → Option ℚ :=
  match skills name with
  | some lvl =>
    Function.update skills name (some (min 1 (lvl + amount * (1 - lvl * (1/2)))))
  | none => skills

/-- A sequence of `improve_skills` calls on the same skill. -/
def improveSeq (skills : Skill → Option ℚ) (name : Skill) :
    List ℚ → (Skill → Option ℚ)
  | [] => skills
  | a :: rest => improveSeq (improveSkills skills name a) name rest

/-- One `improve_skills` call on a present skill in `[0,1]` with a
non-negative amount yields exactly the clamped update, which is at least
the old level and at most `1`. -/
lemma improveSkills_step (skills : Skill → Option ℚ) (name : Skill)
    (s a : ℚ) (hs : skills name = some s) (h0 : 0 ≤ s) (h1 : s ≤ 1)
    (ha : 0 ≤ a) :
    improveSkills skills name a name
      = some (min 1 (s + a * (1 - s * (1/2)))) ∧
    s ≤ min 1 (s + a * (1 - s * (1/2))) ∧
    min 1 (s + a * (1 - s * (1/2))) ≤ 1 := by
  refine ⟨?_, ?_, min_le_left _ _⟩
  · unfold improveSkills
    rw [hs]
    exact Function.update_same name _ skills
  · have hgrow : 0 ≤ a * (1 - s * (1/2)) :=
      mul_nonneg ha (by linarith)
    exact le_min h1 (by linarith)

/-- Iterating `improve_skills` keeps the level present, non-decreasing
relative to the start, and never above `1`. -/
lemma improveSeq_sound (name : Skill) :
    ∀ (amounts : List ℚ) (skills : Skill → Option ℚ) (v : ℚ),
      skills name = some v → 0 ≤ v → v ≤ 1 →
      (∀ x ∈ amounts, 0 ≤ x) →
      ∃ w, improveSeq skills name amounts name = some w ∧ v ≤ w ∧ w ≤ 1 := by
  intro amounts
  induction amounts with
  | nil => intro skills v hv _ hv1 _; exact ⟨v, hv, le_refl v, hv1⟩
  | cons a rest ih =>
    intro skills v hv hv0 hv1 hpos
    obtain ⟨heq, hle, hle1⟩ := improveSkills_step skills name v a hv hv0 hv1
      (hpos a (List.mem_cons_self a rest))
    obtain ⟨w, hw, hvw, hw1⟩ := ih (improveSkills skills name a)
      (min 1 (v + a * (1 - v * (1/2)))) heq (by linarith) hle1
      (fun x hx => hpos x (List.mem_cons_of_mem a hx))
    exact ⟨w, hw, le_trans hle hvw, hw1⟩

/-- C7: `improve_skills` on a present skill level `s ∈ [0,1]` with amount
`a ≥ 0` sets the level to `min 1 (s + a * (1 - s * 0.5))`; consequently
the level never decreases under one call, and under any sequence of calls
with non-negative amounts it is non-decreasing from the start and never
exceeds `1`. -/
theorem C7_improve_skills (skills : Skill → Option ℚ) (name : Skill)
    (s a : ℚ) (hs : skills name = some s) (h0 : 0 ≤ s) (h1 : s ≤ 1)
    (ha : 0 ≤ a) (amounts : List ℚ) (hamounts : ∀ x ∈ amounts, 0 ≤ x) :
    (improveSkills skills name a name
        = some (min 1 (s + a * (1 - s * (1/2)))) ∧
      s ≤ min 1 (s + a * (1 - s * (1/2)))) ∧
    (∃ w, improveSeq skills name amounts name = some w ∧ s ≤ w ∧ w ≤ 1) := by
  obtain ⟨heq, hle, _⟩ := improveSkills_step skills name s a hs h0 h1 ha
  exact ⟨⟨heq, hle⟩, improveSeq_sound name amounts skills s hs h0 h1 hamounts⟩

/-- Witness for C7: a skill at level `1/2`, one call with amount `1/4`,
then a sequence of amounts `[1/4, 3]`. -/
theorem C7_witness :
    ((fun _ : Skill => some ((1:ℚ)/2)) Skill.mining = some (1/2)) ∧
    (0:ℚ) ≤ 1/2 ∧ (1:ℚ)/2 ≤ 1 ∧ (0:ℚ) ≤ 1/4 ∧
    (∀ x ∈ ([1/4, 3] : List ℚ), 0 ≤ x) ∧
    ((improveSkills (fun _ => some (1/2)) Skill.mining (1/4) Skill.mining
        = some (min 1 ((1:ℚ)/2 + (1/4) * (1 - (1/2) * (1/2)))) ∧
      (1:ℚ)/2 ≤ min 1 ((1:ℚ)/2 + (1/4) * (1 - (1/2) * (1/2)))) ∧
    (∃ w, improveSeq (fun _ => some (1/2)) Skill.mining [1/4, 3] Skill.mining
        = some w ∧ (1:ℚ)/2 ≤ w ∧ w ≤ 1)) := by
  refine ⟨rfl, by norm_num, by norm_num, by norm_num,
    by norm_num [List.forall_mem_cons], ?_⟩
  exact C7_improve_skills (fun _ => some (1/2)) Skill.mining (1/2) (1/4)
    rfl (by norm_num) (by norm_num) (by norm_num) [1/4, 3]
    (by norm_num [List.forall_mem_cons])

/-! ### Agent needs and health (`src/agents/agent.py`) -/

/-- The `NeedType` constants. -/
inductive NeedType where
  | food | water | rest | shelter | social
  deriving DecidableEq, Repr

/-- The need keys in dict order. -/
def allNeeds : List NeedType :=
  [.food, .water, .rest, .shelter, .social]

/-- The `need_decay_rates` dict (units per hour). -/
def decayRate : NeedType → ℚ
  | .food => 1
  | .water => 2
  | .rest => 3/2
  | .shelter => 1/2
  | .social => 3/10

/-- Agent state touched by the need/health update and the consumption
helpers (`inventory` food/water entries, absent key ↔ 0). -/
structure AgentState where
  needs : NeedType → ℚ
  health : ℚ
  invFood : ℚ
  invWater : ℚ

/-- The decay loop of `_update_needs`: REST increases by `10.0 * hours`
while sleeping, SHELTER does not decay in shelter, everything else decays
by `rate * hours` clamped at 0. -/
def decayNeeds (needs : NeedType → ℚ) (hours : ℚ) (sleeping inShelter : Bool) :
    NeedType → ℚ :=
  fun k =>
    if k = NeedType.rest ∧ sleeping then min 100 (needs k + 10 * hours)
    else if k = NeedType.shelter ∧ inShelter then needs k
    else max 0 (needs k - decayRate k * hours)

/-- `sum(1 for need, value in self.needs.items() if value < 20.0)` in
`_update_health`. -/
def countCritical (needs : NeedType → ℚ) : ℚ :=
  (allNeeds.map (fun k => if needs k < 20 then (1 : ℚ) else 0)).sum

/-- `Agent._update_health`: lose `0.5 * critical_needs` per call when any
need is below 20; otherwise regenerate `0.2` per call when below full
health and every need exceeds 50; clamped to `[0, 100]`. -/
def updateHealth (needs : NeedType → ℚ) (health : ℚ) : ℚ :=
  if 0 < countCritical needs then
    max 0 (health - (1/2) * countCritical needs)
  else if health < 100 ∧ (∀ k ∈ allNeeds, 50 < needs k) then
    min 100 (health + 1/5)
  else health

/-- `Agent._update_needs`: decay the needs for the elapsed hours, then
derive health from the updated needs. -/
def updateNeeds (s : AgentState) (hours : ℚ) (sleeping inShelter : Bool) :
    AgentState :=
  { s with needs := decayNeeds s.needs hours sleeping inShelter, health := updateHealth (decayNeeds s.needs hours sleeping inShelter) s.health }

/-- `Agent._consume_food`: eat up to 10 units from inventory, each unit
restoring 5 points of the FOOD need, clamped at 100. -/
def consumeFood (s : AgentState) : AgentState :=
  if 0 < s.invFood then
    { s with invFood := s.invFood - min 10 s.invFood, needs := Function.update s.needs NeedType.food (min 100 (s.needs NeedType.food + (min 10 s.invFood) * 5)) }
  else s

/-- `Agent._consume_water`: drink up to 10 units, each restoring 8 points
of the WATER need, clamped at 100. -/
def consumeWater (s : AgentState) : AgentState :=
  if 0 < s.invWater then
    { s with invWater := s.invWater - min 10 s.invWater, needs := Function.update s.needs NeedType.water (min 100 (s.needs NeedType.water + (min 10 s.invWater) * 8)) }
  else s

/-- The SOCIAL-need line of `Agent._socialize_with` (the relationship
bookkeeping touches neither needs nor health and is omitted). -/
def socializeNeed (s : AgentState) : AgentState :=
  { s with needs := Function.update s.needs NeedType.social (min 100 (s.needs NeedType.social + 20)) }

/-- The need/health-mutating operations that `Agent.step` performs through
the code of `agent.py` itself: the per-tick decay+health update (with the
elapsed hours and the sleeping/in-shelter conditions of that tick) and the
completion effects. Mutations that `step` reaches by delegating to a job's
`progress_action` — notably `GuardJob` combat, which writes `agent.health`
with no lower clamp — are NOT expressible in this language; they are
modelled separately by `guardEngageHitRetreat` and break the `[0, 100]`
invariant. -/
inductive AgentOp where
  | decay (hours : ℚ) (sleeping inShelter : Bool)
  | eatFood
  | drinkWater
  | socialize

/-- Apply one `agent.py`-built-in operation to the agent state. This covers
only the `agent.py` mutation paths of `Agent.step`, not the job-delegated
`progress_action` ones (see `guardEngageHitRetreat`). -/
def applyOp (s : AgentState) : AgentOp → AgentState
  | .decay h sl sh => updateNeeds s h sl sh
  | .eatFood => consumeFood s
  | .drinkWater => consumeWater s
  | .socialize => socializeNeed s

/-- Elapsed time is non-negative. -/
def opNonneg : AgentOp → Prop
  | .decay h _ _ => 0 ≤ h
  | _ => True

/-- The invariant claimed by the spec: every need and the health lie in
`[0, 100]`. -/
def InvAgent (s : AgentState) : Prop :=
  (∀ k, 0 ≤ s.needs k ∧ s.needs k ≤ 100) ∧ 0 ≤ s.health ∧ s.health ≤ 100

lemma decayRate_nonneg (k : NeedType) : 0 ≤ decayRate k := by
  cases k <;> norm_num [decayRate]

lemma countCritical_nonneg (needs : NeedType → ℚ) : 0 ≤ countCritical needs := by
  unfold countCritical allNeeds
  simp only [List.map_cons, List.map_nil, List.sum_cons, List.sum_nil]
  split_ifs <;> norm_num

lemma decayNeeds_bounds (needs : NeedType → ℚ) (hours : ℚ)
    (sleeping inShelter : Bool)
    (h : ∀ k, 0 ≤ needs k ∧ needs k ≤ 100) (hh : 0 ≤ hours) :
    ∀ k, 0 ≤ decayNeeds needs hours sleeping inShelter k ∧
         decayNeeds needs hours sleeping inShelter k ≤ 100 := by
  intro k
  unfold decayNeeds
  split_ifs with h1 h2
  · constructor
    · exact le_min (by norm_num) (by nlinarith [(h k).1])
    · exact min_le_left _ _
  · exact h k
  · constructor
    · exact le_max_left _ _
    · refine max_le (by norm_num) ?_
      have := mul_nonneg (decayRate_nonneg k) hh
      nlinarith [(h k).2]

lemma updateHealth_bounds (needs : NeedType → ℚ) (health : ℚ)
    (h0 : 0 ≤ health) (h1 : health ≤ 100) :
    0 ≤ updateHealth needs health ∧ updateHealth needs health ≤ 100 := by
  unfold updateHealth
  have hc : 0 ≤ countCritical needs := countCritical_nonneg needs
  split_ifs with hcrit hreg
  · refine ⟨le_max_left _ _, max_le (by norm_num) ?_⟩
    nlinarith
  · exact ⟨le_min (by norm_num) (by linarith), min_le_left _ _⟩
  · exact ⟨h0, h1⟩

/-- Overwriting a single need with an in-range value keeps every need in
range. -/
lemma update_one_need (needs : NeedType → ℚ) (k0 : NeedType) (v : ℚ)
    (h : ∀ k, 0 ≤ needs k ∧ needs k ≤ 100) (hv0 : 0 ≤ v) (hv1 : v ≤ 100) :
    ∀ k, 0 ≤ Function.update needs k0 v k ∧ Function.update needs k0 v k ≤ 100 := by
  intro k
  by_cases hk : k = k0
  · subst hk
    rw [Function.update_same]
    exact ⟨hv0, hv1⟩
  · rw [Function.update_noteq hk]
    exact h k

/-- Every operation preserves the invariant (elapsed time non-negative). -/
lemma applyOp_preserves (s : AgentState) (op : AgentOp)
    (hs : InvAgent s) (hop : opNonneg op) : InvAgent (applyOp s op) := by
  obtain ⟨hneeds, hh0, hh1⟩ := hs
  cases op with
  | decay h sl sh =>
    have hb := decayNeeds_bounds s.needs h sl sh hneeds hop
    exact ⟨hb, updateHealth_bounds _ s.health hh0 hh1⟩
  | eatFood =>
    show InvAgent (consumeFood s)
    unfold consumeFood
    split_ifs with hpos
    · have hamt : 0 ≤ min 10 s.invFood := le_min (by norm_num) (le_of_lt hpos)
      refine ⟨?_, hh0, hh1⟩
      exact update_one_need s.needs NeedType.food
        (min 100 (s.needs NeedType.food + (min 10 s.invFood) * 5)) hneeds
        (le_min (by norm_num) (by nlinarith [(hneeds NeedType.food).1]))
        (min_le_left _ _)
    · exact ⟨hneeds, hh0, hh1⟩
  | drinkWater =>
    show InvAgent (consumeWater s)
    unfold consumeWater
    split_ifs with hpos
    · have hamt : 0 ≤ min 10 s.invWater := le_min (by norm_num) (le_of_lt hpos)
      refine ⟨?_, hh0, hh1⟩
      exact update_one_need s.needs NeedType.water
        (min 100 (s.needs NeedType.water + (min 10 s.invWater) * 8)) hneeds
        (le_min (by norm_num) (by nlinarith [(hneeds NeedType.water).1]))
        (min_le_left _ _)
    · exact ⟨hneeds, hh0, hh1⟩
  | socialize =>
    show InvAgent (socializeNeed s)
    unfold socializeNeed
    refine ⟨?_, hh0, hh1⟩
    exact update_one_need s.needs NeedType.social
      (min 100 (s.needs NeedType.social + 20)) hneeds
      (le_min (by norm_num) (by linarith [(hneeds NeedType.social).1]))
      (min_le_left _ _)

/-- Folding a list of invariant-preserving operations preserves the
invariant. -/
lemma foldl_preserves (ops : List AgentOp) :
    ∀ s : AgentState, InvAgent s → (∀ op ∈ ops, opNonneg op) →
      InvAgent (ops.foldl applyOp s) := by
  induction ops with
  | nil => intro s hs _; exact hs
  | cons op rest ih =>
    intro s hs hops
    exact ih (applyOp s op)
      (applyOp_preserves s op hs (hops op (List.mem_cons_self op rest)))
      (fun o ho => hops o (List.mem_cons_of_mem op ho))

/-- C4 (amended): from any agent state with needs and health in `[0, 100]`,
after any prefix of any sequence of steps whose mutations are the built-in
`agent.py` operations (need decay with the sleeping/shelter exceptions,
health derivation, food/water consumption, socializing) with non-negative
elapsed time, every need and the health remain in `[0, 100]`. As
universally stated over any world state the claim is false: a step that
delegates to `GuardJob._progress_engage_threat` subtracts combat damage
from health with no lower clamp (see `guardEngageHitRetreat`). -/
theorem C4_agent_needs_health_invariant (s0 : AgentState) (h0 : InvAgent s0)
    (ops : List AgentOp) (hops : ∀ op ∈ ops, opNonneg op) :
    ∀ pre rest, ops = pre ++ rest → InvAgent (pre.foldl applyOp s0) := by
  intro pre rest hsplit
  refine foldl_preserves pre s0 h0 ?_
  intro op hop
  exact hops op (by rw [hsplit]; exact List.mem_append_left rest hop)

/-- A concrete fresh agent state for the C4 witness. -/
def freshAgent : AgentState := ⟨fun _ => 100, 100, 3, 0⟩

/-- Witness for C4 at a concrete state and operation sequence. -/
theorem C4_witness :
    InvAgent freshAgent ∧
    (∀ op ∈ ([.decay 1 false false, .eatFood, .socialize] : List AgentOp),
      opNonneg op) ∧
    InvAgent (([.decay 1 false false, .eatFood] : List AgentOp).foldl
      applyOp freshAgent) := by
  have h0 : InvAgent freshAgent :=
    ⟨fun k => by norm_num [freshAgent], by norm_num [freshAgent],
     by norm_num [freshAgent]⟩
  have hops : ∀ op ∈ ([.decay 1 false false, .eatFood, .socialize] :
      List AgentOp), opNonneg op := by
    intro op hop
    rcases List.mem_cons.mp hop with rfl | hop
    · show (0:ℚ) ≤ 1; norm_num
    · rcases List.mem_cons.mp hop with rfl | hop
      · trivial
      · rcases List.mem_cons.mp hop with rfl | hop
        · trivial
        · cases hop
  refine ⟨h0, hops, ?_⟩
  exact C4_agent_needs_health_invariant freshAgent h0 _ hops
    [.decay 1 false false, .eatFood] [.socialize] rfl

/-- The needs of the C8 failing input: FOOD critical at 10, everything
else full. -/
def c8Needs : NeedType → ℚ
  | .food => 10
  | _ => 100

/-- The C8 failing input: an agent whose FOOD need is 10 (critical) with
every other need at 100, stepped by one tick at the default
`ticks_per_hour = 10` (elapsed time `1/10` hour). -/
def c8Agent : AgentState := ⟨c8Needs, 100, 0, 0⟩

/-- C8 (code behaviour at the failing input): `_update_health` subtracts
`0.5 * critical_needs` per *call* — one whole 0.5 for this single tick —
although only `1/10` hour elapsed, so health lands at `99.5` rather than
the `100 - 0.5 * (1/10)` that the claimed per-hour rate (and the code's
own inline comment) prescribes. -/
theorem C8_health_loss_not_scaled_by_hours :
    (updateNeeds c8Agent (1/10) false false).health = 100 - 1/2 ∧
    (updateNeeds c8Agent (1/10) false false).health ≠ 100 - (1/2) * (1/10) := by
  have hval : (updateNeeds c8Agent (1/10) false false).health = 100 - 1/2 := by
    show updateHealth (decayNeeds c8Agent.needs (1/10) false false)
        c8Agent.health = 100 - 1/2
    norm_num [updateHealth, countCritical, decayNeeds, decayRate, allNeeds,
      c8Agent, c8Needs]
  exact ⟨hval, by rw [hval]; norm_num⟩

/-- One combat tick of `GuardJob._progress_engage_threat` along the path
where the 30% damage roll hits and the badly injured guard retreats
(guard.py lines 384-395), as reached from `Agent.step` via
`_progress_action`'s delegation to `job.progress_action`: the guard takes
`damage = threat.base_strength * threat.strength * 0.1 * time_delta /
armor_bonus` subtracted from `agent.health` with NO lower clamp, and the
function returns a retreat record without touching health again
(`armor_bonus` is `0.5` without armor, `1 + 0.5 * quality` with armor;
`base_strength` is `difficulty * 10`, up to 100). The two random rolls
select this path and are parameters of it; needs are untouched on this
path. -/
def guardEngageHitRetreat (s : AgentState) (baseStrength strength dt armorBonus : ℚ) :
    AgentState :=
  { s with health := s.health - baseStrength * strength * (1/10) * dt / armorBonus }

/-- The C4 counterexample agent: a valid state (all needs 100, health 5)
of a guard already standing on an attacking threat's cell. -/
def c4GuardAgent : AgentState := ⟨fun _ => 100, 5, 0, 0⟩

/-- C4 fails as universally stated: from the valid state `c4GuardAgent`
(health 5, all needs full), one step in which the guard's `engage_threat`
action takes a hit from an attacking threat with `base_strength = 100`
(difficulty 10) and `strength = 1`, unarmoured (`armor_bonus = 0.5`), at
`time_delta = 1`, leaves health `5 - 20 = -15 < 0` — the step returns
normally through the retreat branch, so `0 ≤ health` does not survive the
step. -/
theorem C4_counterexample :
    InvAgent c4GuardAgent ∧
    ¬ (0 ≤ (guardEngageHitRetreat c4GuardAgent 100 1 1 (1/2)).health) := by
  constructor
  · exact ⟨fun k => by norm_num [c4GuardAgent], by norm_num [c4GuardAgent],
      by norm_num [c4GuardAgent]⟩
  · norm_num [guardEngageHitRetreat, c4GuardAgent]

/-! ### Job manager (`src/jobs/job_manager.py`) -/

/-- The eight job names appearing in `job_need_map`. -/
inductive JobKind where
  | farmer | woodcutter | builder | miner | merchant | blacksmith
  | guard | healer
  deriving DecidableEq, Repr

/-- The keys of the `village_needs` dict. -/
inductive NeedKey where
  | food | building | wood | mining | trading | crafting | security | health
  deriving DecidableEq, Repr

/-- `job_need_map` in its dict insertion order. -/
def jobNeedList : List (JobKind × NeedKey) :=
  [(.farmer, .food), (.woodcutter, .wood), (.builder, .building),
   (.miner, .mining), (.merchant, .trading), (.blacksmith, .crafting),
   (.guard, .security), (.healer, .health)]

/-- `JobManager._get_job_skill_aptitude` (`skills.get(name, 0.0)` with the
averages for merchant, blacksmith and guard). -/
def skillAptitude (skills : Skill → Option ℚ) : JobKind → ℚ
  | .farmer => (skills Skill.farming).getD 0
  | .woodcutter => (skills Skill.woodcutting).getD 0
  | .builder => (skills Skill.building).getD 0
  | .miner => (skills Skill.mining).getD 0
  | .merchant => ((skills Skill.negotiation).getD 0 + (skills Skill.charisma).getD 0) / 2
  | .blacksmith => ((skills Skill.crafting).getD 0 + (skills Skill.strength).getD 0) / 2
  | .guard => ((skills Skill.combat).getD 0 + (skills Skill.strength).getD 0) / 2
  | .healer => (skills Skill.healing).getD 0

/-- An entry of `job_change_history`. -/
structure ChangeRec where
  agentId : ℕ
  day : ℤ
  deriving DecidableEq, Repr

/-- `next((change for change in history if change.agent_id == id), None)`:
the FIRST matching entry in list order (history is appended
chronologically, so this is the agent's EARLIEST change). -/
def findFirst (agentId : ℕ) : List ChangeRec → Option ChangeRec
  | [] => none
  | c :: rest => if c.agentId = agentId then some c else findFirst agentId rest

/-- The best-alternative scan of `should_change_job`: fold over
`job_need_map`, weighting each need by `(0.5 + 0.5 * aptitude)` and keeping
the strictly largest; the accumulator starts at the current job's need. -/
def bestJobScan (needs : NeedKey → ℚ) (skills : Skill → Option ℚ)
    (start : ℚ × Option JobKind) : List (JobKind × NeedKey) → ℚ × Option JobKind
  | [] => start
  | p :: rest =>
    let adjusted := needs p.2 * (1/2 + (1/2) * skillAptitude skills p.1)
    if start.1 < adjusted then bestJobScan needs skills (adjusted, some p.1) rest
    else bestJobScan needs skills start rest

/-- `JobManager.should_change_job`. The agent's current job name is
`some kind` when it is one of the eight mapped names and `none` otherwise
(including "unemployed", whose need defaults to 0). -/
def shouldChangeJob (agentId : ℕ) (history : List ChangeRec) (currentDay : ℤ)
    (needs : NeedKey → ℚ) (skills : Skill → Option ℚ)
    (currentJob : Option JobKind) : Bool :=
  let blocked : Bool :=
    match findFirst agentId history with
    | some c => decide (currentDay - c.day < 15)
    | none => false
  if blocked then false
  else
    let currentNeed :=
      match currentJob with
      | some jk => needs ((jobNeedList.lookup jk).getD NeedKey.food)
      | none => 0
    let best := bestJobScan needs skills (currentNeed, currentJob) jobNeedList
    if best.2 ≠ currentJob ∧ currentNeed * (3/2) < best.1 then true else false

/-- The needs of the C9 failing input: `food` at 5, everything else 0. -/
def c9Needs : NeedKey → ℚ
  | .food => 5
  | _ => 0

/-- The history of the C9 failing input: agent 7 changed jobs on day 0 and
again on day 18. -/
def c9History : List ChangeRec := [⟨7, 0⟩, ⟨7, 18⟩]

/-- C9 (code behaviour at the failing input): on day 20, agent 7's most
recent job change (day 18) was 2 < 15 days ago, yet `should_change_job`
returns `true`, because `next(...)` fetches the FIRST matching history
entry (day 0, 20 days ago), not the most recent one. -/
theorem C9_block_uses_earliest_change :
    shouldChangeJob 7 c9History 20 c9Needs (fun _ => none) none = true ∧
    (⟨7, 18⟩ : ChangeRec) ∈ c9History ∧ (20 : ℤ) - 18 < 15 := by
  refine ⟨?_, by simp [c9History], by norm_num⟩
  norm_num [shouldChangeJob, findFirst, c9History, bestJobScan, jobNeedList,
    skillAptitude, c9Needs]
  simp

/-! ### Storage manager (`StorageManager` in `src/environment/storage.py`)

The manager's `resource_map` caches, per resource type, the list of
facilities that may store that type. The cached lists hold references to
the facility objects; we model references as indices into the manager's
facility list. -/

/-- The `isinstance` dispatch of `StorageManager._update_resource_map`:
`Warehouse` stores anything, `Granary` food, `Stockpile` raw resources,
`Armory` weapons and tools; a plain `StorageFacility` matches no branch. -/
def managerAccepts (k : FacilityKind) (ty : ResourceType) : Bool :=
  match k with
  | .warehouse => true
  | .granary => granaryAccepts ty
  | .stockpile => isRawResource ty
  | .armory => armoryAccepts ty
  | .base => false

/-- State of a `StorageManager`: the facility list and the per-type cache
of eligible facility references (indices). -/
structure Manager where
  facilities : List Facility
  resourceMap : ResourceType → Option (List ℕ)

/-- The eligible-facility scan of `_update_resource_map`, collecting the
indices (references) of accepting facilities starting at index `n`. -/
def eligIdxFrom (ty : ResourceType) : ℕ → List Facility → List ℕ
  | _, [] => []
  | n, f :: rest =>
    if managerAccepts f.kind ty then n :: eligIdxFrom ty (n + 1) rest
    else eligIdxFrom ty (n + 1) rest

/-- `StorageManager.get_facilities_for_resource`: use the cached list when
present, otherwise compute and cache it. -/
def getFacilitiesFor (m : Manager) (ty : ResourceType) : List ℕ × Manager :=
  match m.resourceMap ty with
  | some idxs => (idxs, m)
  | none =>
    (eligIdxFrom ty 0 m.facilities,
     { m with resourceMap := Function.update m.resourceMap ty (some (eligIdxFrom ty 0 m.facilities)) })

/-- Dereference a facility index (a dangling index never arises from the
manager's own cache). -/
def getFac (facs : List Facility) (i : ℕ) : Facility :=
  facs.getD i (Facility.mk0 .base 0)

/-- Stable insertion for descending order by key: an element moves past
strictly-greater keys only, so equal keys keep their original order.
Models the observable behaviour of Python's stable `list.sort(key=...,
reverse=True)`. -/
def insertByKeyDesc (key : α → ℚ) (x : α) : List α → List α
  | [] => [x]
  | y :: ys => if key x < key y then y :: insertByKeyDesc key x ys else x :: y :: ys

/-- Stable sort, descending by key. -/
def sortByKeyDesc (key : α → ℚ) : List α → List α
  | [] => []
  | x :: xs => insertByKeyDesc key x (sortByKeyDesc key xs)

/-- The allocation loop of `StorageManager.add_resource` over the sorted
eligible references: stop when nothing remains, otherwise let the facility
(virtual dispatch) take what it can, write it back and continue. Returns
`total_added` and the updated facility list. -/
def greedyAddIdx (ty : ResourceType) : List ℕ → ℚ → List Facility → ℚ × List Facility
  | [], _, facs => (0, facs)
  | i :: rest, remaining, facs =>
    if remaining ≤ 0 then (0, facs)
    else
      let r := (getFac facs i).addResource ty remaining
      let res := greedyAddIdx ty rest (remaining - r.1) (facs.set i r.2)
      (r.1 + res.1, res.2)

/-- The draining loop of `StorageManager.remove_resource` (the base-class
`remove_resource`, which no subclass overrides). -/
def greedyRemoveIdx (ty : ResourceType) : List ℕ → ℚ → List Facility → ℚ × List Facility
  | [], _, facs => (0, facs)
  | i :: rest, remaining, facs =>
    if remaining ≤ 0 then (0, facs)
    else
      let r := (getFac facs i).baseRemove ty remaining
      let res := greedyRemoveIdx ty rest (remaining - r.1) (facs.set i r.2)
      (r.1 + res.1, res.2)

/-- `StorageManager.add_resource`: fetch (or build) the cached eligible
list, return 0 if it is empty, otherwise sort it in place by descending
available capacity (the cache keeps the sorted order) and fill greedily. -/
def managerAdd (m : Manager) (ty : ResourceType) (amount : ℚ) : ℚ × Manager :=
  let gm := getFacilitiesFor m ty
  if gm.1.isEmpty then (0, gm.2)
  else
    let sorted := sortByKeyDesc (fun i => (getFac gm.2.facilities i).availCap) gm.1
    let res := greedyAddIdx ty sorted amount gm.2.facilities
    (res.1, { facilities := res.2, resourceMap := Function.update gm.2.resourceMap ty (some sorted) })

/-- `StorageManager.remove_resource`: same eligible list, sorted in place
by descending held amount of the type, drained greedily. -/
def managerRemove (m : Manager) (ty : ResourceType) (amount : ℚ) : ℚ × Manager :=
  let gm := getFacilitiesFor m ty
  let sorted := sortByKeyDesc (fun i => (getFac gm.2.facilities i).resources ty) gm.1
  let res := greedyRemoveIdx ty sorted amount gm.2.facilities
  (res.1, { facilities := res.2, resourceMap := Function.update gm.2.resourceMap ty (some sorted) })

/-! The spec-side algorithm, written from the words of §4.4 of the spec:
eligible facilities are exactly those whose accept policy admits the type;
they are processed in descending order of available capacity (resp. held
amount), each greedily filled up to its remaining capacity (resp. drained
of what it holds), and the total is returned. -/

/-- Spec: the facilities whose accept policy admits the type. -/
def specEligible (facs : List Facility) (ty : ResourceType) : List Facility :=
  facs.filter (fun f => managerAccepts f.kind ty)

/-- Spec: greedy filling, each facility up to its remaining capacity. -/
def specGreedyAdd : List Facility → ℚ → ℚ
  | [], _ => 0
  | f :: rest, remaining =>
    min remaining f.availCap + specGreedyAdd rest (remaining - min remaining f.availCap)

/-- Spec: greedy draining, each facility down to zero of the type. -/
def specGreedyRemove (ty : ResourceType) : List Facility → ℚ → ℚ
  | [], _ => 0
  | f :: rest, remaining =>
    min remaining (f.resources ty)
      + specGreedyRemove ty rest (remaining - min remaining (f.resources ty))

/-- Spec: total added by `add_resource`. -/
def specAddTotal (facs : List Facility) (ty : ResourceType) (amount : ℚ) : ℚ :=
  specGreedyAdd (sortByKeyDesc Facility.availCap (specEligible facs ty)) amount

/-- Spec: total removed by `remove_resource`. -/
def specRemoveTotal (facs : List Facility) (ty : ResourceType) (amount : ℚ) : ℚ :=
  specGreedyRemove ty
    (sortByKeyDesc (fun f => f.resources ty) (specEligible facs ty)) amount

/-- The cache state under which the eligible set is exact: the entry for
the type is absent (it will be computed from the accept policies) or it
matches the accept policies of the current facility list. -/
def cacheFresh (m : Manager) (ty : ResourceType) : Prop :=
  m.resourceMap ty = none ∨ m.resourceMap ty = some (eligIdxFrom ty 0 m.facilities)

lemma insertByKeyDesc_perm (key : α → ℚ) (x : α) :
    ∀ l : List α, (insertByKeyDesc key x l).Perm (x :: l) := by
  intro l
  induction l with
  | nil => exact List.Perm.refl _
  | cons y ys ih =>
    unfold insertByKeyDesc
    split_ifs
    · exact (ih.cons y).trans (List.Perm.swap x y ys)
    · exact List.Perm.refl _

lemma sortByKeyDesc_perm (key : α → ℚ) :
    ∀ l : List α, (sortByKeyDesc key l).Perm l := by
  intro l
  induction l with
  | nil => exact List.Perm.refl _
  | cons x xs ih =>
    exact (insertByKeyDesc_perm key x (sortByKeyDesc key xs)).trans (ih.cons x)

lemma insertByKeyDesc_map (key : β → ℚ) (g : α → β) (x : α) :
    ∀ l : List α,
      (insertByKeyDesc (fun a => key (g a)) x l).map g
        = insertByKeyDesc key (g x) (l.map g) := by
  intro l
  induction l with
  | nil => rfl
  | cons y ys ih =>
    unfold insertByKeyDesc
    split_ifs with h
    · simp only [List.map_cons, ih]
      rw [if_pos h]
    · simp only [List.map_cons]
      rw [if_neg h]

lemma sortByKeyDesc_map (key : β → ℚ) (g : α → β) :
    ∀ l : List α,
      (sortByKeyDesc (fun a => key (g a)) l).map g
        = sortByKeyDesc key (l.map g) := by
  intro l
  induction l with
  | nil => rfl
  | cons x xs ih =>
    show (insertByKeyDesc (fun a => key (g a)) x
        (sortByKeyDesc (fun a => key (g a)) xs)).map g = _
    rw [insertByKeyDesc_map, ih]
    rfl

lemma getFac_set_ne :
    ∀ (l : List Facility) (i j : ℕ) (f : Facility), i ≠ j →
      getFac (l.set i f) j = getFac l j := by
  intro l
  induction l with
  | nil => intro i j f _; cases i <;> rfl
  | cons x xs ih =>
    intro i j f hij
    cases i with
    | zero =>
      cases j with
      | zero => exact absurd rfl hij
      | succ j2 => rfl
    | succ i2 =>
      cases j with
      | zero => rfl
      | succ j2 => exact ih i2 j2 f (fun h => hij (by rw [h]))

lemma getFac_nonneg (facs : List Facility) (ty : ResourceType)
    (h : ∀ f ∈ facs, 0 ≤ f.resources ty) :
    ∀ i, 0 ≤ (getFac facs i).resources ty := by
  induction facs with
  | nil =>
    intro i
    show (0:ℚ) ≤ (Facility.mk0 .base 0).resources ty
    norm_num [Facility.mk0]
  | cons x xs ih =>
    intro i
    cases i with
    | zero => exact h x (List.mem_cons_self x xs)
    | succ i2 => exact ih (fun f hf => h f (List.mem_cons_of_mem x hf)) i2

lemma availCap_nonneg (f : Facility) : 0 ≤ f.availCap := le_max_left _ _

lemma specGreedyAdd_zero : ∀ l : List Facility, specGreedyAdd l 0 = 0 := by
  intro l
  induction l with
  | nil => rfl
  | cons f rest ih =>
    show min 0 f.availCap + specGreedyAdd rest (0 - min 0 f.availCap) = 0
    rw [min_eq_left (availCap_nonneg f)]
    simpa using ih

lemma specGreedyRemove_zero (ty : ResourceType) :
    ∀ l : List Facility, (∀ f ∈ l, 0 ≤ f.resources ty) →
      specGreedyRemove ty l 0 = 0 := by
  intro l
  induction l with
  | nil => intro _; rfl
  | cons f rest ih =>
    intro h
    show min 0 (f.resources ty) + specGreedyRemove ty rest (0 - min 0 (f.resources ty)) = 0
    rw [min_eq_left (h f (List.mem_cons_self f rest))]
    simpa using ih (fun g hg => h g (List.mem_cons_of_mem f hg))

/-- On an accepting facility, the virtual `add_resource` is the base-class
method. -/
lemma addResource_accepted (f : Facility) (ty : ResourceType) (a : ℚ)
    (h : managerAccepts f.kind ty = true) :
    f.addResource ty a = f.baseAdd ty a := by
  unfold Facility.addResource
  unfold managerAccepts at h
  cases hk : f.kind <;> simp only [hk] at h ⊢ <;> rw [if_pos h]

lemma eligIdxFrom_ge (ty : ResourceType) :
    ∀ (facs : List Facility) (n : ℕ), ∀ i ∈ eligIdxFrom ty n facs, n ≤ i := by
  intro facs
  induction facs with
  | nil => intro n i hi; cases hi
  | cons f rest ih =>
    intro n i hi
    unfold eligIdxFrom at hi
    split_ifs at hi with h
    · rcases List.mem_cons.mp hi with rfl | hi
      · exact le_refl i
      · exact le_trans (Nat.le_succ n) (ih (n + 1) i hi)
    · exact le_trans (Nat.le_succ n) (ih (n + 1) i hi)

lemma eligIdxFrom_nodup (ty : ResourceType) :
    ∀ (facs : List Facility) (n : ℕ), (eligIdxFrom ty n facs).Nodup := by
  intro facs
  induction facs with
  | nil => intro n; exact List.nodup_nil
  | cons f rest ih =>
    intro n
    unfold eligIdxFrom
    split_ifs with h
    · refine List.nodup_cons.mpr ⟨?_, ih (n + 1)⟩
      intro hmem
      have := eligIdxFrom_ge ty rest (n + 1) n hmem
      omega
    · exact ih (n + 1)

/-- Dereferencing the eligible indices yields exactly the accept-policy
filter of the facility list, and every eligible index dereferences to an
accepting facility. -/
lemma eligIdxFrom_map_accepts (ty : ResourceType) :
    ∀ (facs : List Facility) (n : ℕ) (full : List Facility),
      (∀ k, k < facs.length → getFac full (n + k) = getFac facs k) →
      ((eligIdxFrom ty n facs).map (getFac full) = specEligible facs ty ∧
       ∀ i ∈ eligIdxFrom ty n facs,
         managerAccepts (getFac full i).kind ty = true) := by
  intro facs
  induction facs with
  | nil =>
    intro n full _
    exact ⟨rfl, fun i hi => absurd hi (List.not_mem_nil i)⟩
  | cons f rest ih =>
    intro n full hrel
    have hf : getFac full n = f := by
      have h0 := hrel 0 (by simp)
      rw [Nat.add_zero] at h0
      exact h0
    have hrest : ∀ k, k < rest.length → getFac full (n + 1 + k) = getFac rest k := by
      intro k hk
      have hk2 := hrel (k + 1) (by simpa using Nat.succ_lt_succ hk)
      rw [show n + (k + 1) = n + 1 + k by omega] at hk2
      exact hk2
    obtain ⟨ihmap, ihacc⟩ := ih (n + 1) full hrest
    unfold eligIdxFrom
    by_cases h : managerAccepts f.kind ty = true
    · rw [if_pos h]
      constructor
      · show getFac full n :: (eligIdxFrom ty (n + 1) rest).map (getFac full) = _
        rw [hf, ihmap]
        simp [specEligible, List.filter_cons, h]
      · intro i hi
        rcases List.mem_cons.mp hi with rfl | hi
        · rw [hf]; exact h
        · exact ihacc i hi
    · rw [if_neg h]
      refine ⟨?_, ihacc⟩
      rw [ihmap]
      simp [specEligible, List.filter_cons, h]

lemma specGreedyAdd_cons (f : Facility) (rest : List Facility) (r : ℚ) :
    specGreedyAdd (f :: rest) r
      = min r f.availCap + specGreedyAdd rest (r - min r f.availCap) := rfl

/-- The manager's allocation loop computes exactly the spec's greedy fill
over the dereferenced facility sequence. -/
lemma greedyAddIdx_spec (ty : ResourceType) :
    ∀ (idxs : List ℕ) (facs : List Facility) (r : ℚ),
      0 ≤ r → idxs.Nodup →
      (∀ i ∈ idxs, managerAccepts (getFac facs i).kind ty = true) →
      (greedyAddIdx ty idxs r facs).1
        = specGreedyAdd (idxs.map (getFac facs)) r := by
  intro idxs
  induction idxs with
  | nil => intro facs r _ _ _; rfl
  | cons i rest ih =>
    intro facs r hr hnd hacc
    rcases List.nodup_cons.mp hnd with ⟨hi, hndrest⟩
    have hacc0 : managerAccepts (getFac facs i).kind ty = true :=
      hacc i (List.mem_cons_self i rest)
    have hstep : ((getFac facs i).addResource ty r).1
        = min r ((getFac facs i).availCap) := by
      rw [addResource_accepted _ _ _ hacc0]
      rfl
    unfold greedyAddIdx
    by_cases hr0 : r ≤ 0
    · rw [if_pos hr0]
      have hreq : r = 0 := le_antisymm hr0 hr
      subst hreq
      show (0 : ℚ) = specGreedyAdd (getFac facs i :: rest.map (getFac facs)) 0
      rw [specGreedyAdd_zero]
    · rw [if_neg hr0]
      have hsetr : ∀ j ∈ rest,
          getFac (facs.set i ((getFac facs i).addResource ty r).2) j
            = getFac facs j := by
        intro j hj
        exact getFac_set_ne facs i j _ (fun hij => hi (hij ▸ hj))
      have hmap : rest.map (getFac (facs.set i ((getFac facs i).addResource ty r).2))
          = rest.map (getFac facs) := List.map_congr_left hsetr
      have hacc2 : ∀ j ∈ rest,
          managerAccepts ((getFac (facs.set i ((getFac facs i).addResource ty r).2) j).kind) ty = true := by
        intro j hj
        rw [hsetr j hj]
        exact hacc j (List.mem_cons_of_mem i hj)
      have hr2 : 0 ≤ r - ((getFac facs i).addResource ty r).1 := by
        rw [hstep]
        have := min_le_left r ((getFac facs i).availCap)
        linarith
      show ((getFac facs i).addResource ty r).1
          + (greedyAddIdx ty rest (r - ((getFac facs i).addResource ty r).1)
              (facs.set i ((getFac facs i).addResource ty r).2)).1 = _
      rw [ih _ _ hr2 hndrest hacc2, hmap]
      show _ = specGreedyAdd (getFac facs i :: rest.map (getFac facs)) r
      rw [specGreedyAdd_cons, hstep]

lemma specGreedyRemove_cons (ty : ResourceType) (f : Facility)
    (rest : List Facility) (r : ℚ) :
    specGreedyRemove ty (f :: rest) r
      = min r (f.resources ty)
        + specGreedyRemove ty rest (r - min r (f.resources ty)) := rfl

/-- Unfolding lemma for `baseRemove` with the lets inlined. -/
lemma baseRemove_def (f : Facility) (ty : ResourceType) (r : ℚ) :
    f.baseRemove ty r =
      if 0 < min r (f.resources ty) then
        (min r (f.resources ty),
         { f with resources := Function.update f.resources ty (f.resources ty - min r (f.resources ty)) })
      else (min r (f.resources ty), f) := rfl

lemma baseRemove_ret (f : Facility) (ty : ResourceType) (r : ℚ) :
    (f.baseRemove ty r).1 = min r (f.resources ty) := by
  rw [baseRemove_def]
  split_ifs <;> rfl

lemma baseRemove_res_nonneg (f : Facility) (ty : ResourceType) (r : ℚ)
    (h : 0 ≤ f.resources ty) : 0 ≤ ((f.baseRemove ty r).2).resources ty := by
  rw [baseRemove_def]
  split_ifs with hpos
  · show 0 ≤ Function.update f.resources ty
      (f.resources ty - min r (f.resources ty)) ty
    rw [Function.update_same]
    have := min_le_right r (f.resources ty)
    linarith
  · exact h

lemma getFac_set_self :
    ∀ (l : List Facility) (i : ℕ) (f : Facility),
      getFac (l.set i f) i = f ∨ getFac (l.set i f) i = getFac l i := by
  intro l
  induction l with
  | nil => intro i f; right; rfl
  | cons x xs ih =>
    intro i f
    cases i with
    | zero => left; rfl
    | succ i2 => exact ih i2 f

/-- The manager's draining loop computes exactly the spec's greedy drain
over the dereferenced facility sequence. -/
lemma greedyRemoveIdx_spec (ty : ResourceType) :
    ∀ (idxs : List ℕ) (facs : List Facility) (r : ℚ),
      0 ≤ r → idxs.Nodup →
      (∀ j, 0 ≤ (getFac facs j).resources ty) →
      (greedyRemoveIdx ty idxs r facs).1
        = specGreedyRemove ty (idxs.map (getFac facs)) r := by
  intro idxs
  induction idxs with
  | nil => intro facs r _ _ _; rfl
  | cons i rest ih =>
    intro facs r hr hnd hres
    rcases List.nodup_cons.mp hnd with ⟨hi, hndrest⟩
    have hstep : ((getFac facs i).baseRemove ty r).1
        = min r ((getFac facs i).resources ty) := baseRemove_ret _ _ _
    unfold greedyRemoveIdx
    by_cases hr0 : r ≤ 0
    · rw [if_pos hr0]
      have hreq : r = 0 := le_antisymm hr0 hr
      subst hreq
      show (0 : ℚ) = specGreedyRemove ty (getFac facs i :: rest.map (getFac facs)) 0
      rw [specGreedyRemove_zero]
      intro g hg
      rcases List.mem_cons.mp hg with rfl | hg
      · exact hres i
      · obtain ⟨j, _, rfl⟩ := List.mem_map.mp hg
        exact hres j
    · rw [if_neg hr0]
      have hsetr : ∀ j ∈ rest,
          getFac (facs.set i ((getFac facs i).baseRemove ty r).2) j
            = getFac facs j := by
        intro j hj
        exact getFac_set_ne facs i j _ (fun hij => hi (hij ▸ hj))
      have hmap : rest.map (getFac (facs.set i ((getFac facs i).baseRemove ty r).2))
          = rest.map (getFac facs) := List.map_congr_left hsetr
      have hres2 : ∀ j,
          0 ≤ (getFac (facs.set i ((getFac facs i).baseRemove ty r).2) j).resources ty := by
        intro j
        by_cases hij : i = j
        · subst hij
          rcases getFac_set_self facs i ((getFac facs i).baseRemove ty r).2 with he | he
          · rw [he]
            exact baseRemove_res_nonneg _ _ _ (hres i)
          · rw [he]
            exact hres i
        · rw [getFac_set_ne facs i j _ hij]
          exact hres j
      have hr2 : 0 ≤ r - ((getFac facs i).baseRemove ty r).1 := by
        rw [hstep]
        have := min_le_left r ((getFac facs i).resources ty)
        linarith
      show ((getFac facs i).baseRemove ty r).1
          + (greedyRemoveIdx ty rest (r - ((getFac facs i).baseRemove ty r).1)
              (facs.set i ((getFac facs i).baseRemove ty r).2)).1 = _
      rw [ih _ _ hr2 hndrest hres2, hmap]
      show _ = specGreedyRemove ty (getFac facs i :: rest.map (getFac facs)) r
      rw [specGreedyRemove_cons, hstep]

/-- C2 (amended): when the cache entry for the type is absent or matches
the accept policies of the current facility list, `StorageManager`'s
`add_resource` returns exactly the spec's total — greedy fill over the
accept-policy-eligible facilities in descending order of available
capacity — and `remove_resource` returns the spec's total — greedy drain
in descending order of held amount (facility holdings non-negative, as in
every reachable state). Both are pure functions of the facility states. -/
theorem C2_storageManager_allocation (m : Manager) (ty : ResourceType) (a : ℚ)
    (ha : 0 ≤ a) (hfresh : cacheFresh m ty)
    (hres : ∀ f ∈ m.facilities, 0 ≤ f.resources ty) :
    (managerAdd m ty a).1 = specAddTotal m.facilities ty a ∧
    (managerRemove m ty a).1 = specRemoveTotal m.facilities ty a := by
  have hg1 : (getFacilitiesFor m ty).1 = eligIdxFrom ty 0 m.facilities := by
    unfold getFacilitiesFor
    rcases hfresh with h | h <;> rw [h]
  have hg2 : (getFacilitiesFor m ty).2.facilities = m.facilities := by
    unfold getFacilitiesFor
    rcases hfresh with h | h <;> rw [h]
  obtain ⟨hmapfull, haccfull⟩ := eligIdxFrom_map_accepts ty m.facilities 0
    m.facilities (by intro k _; rw [Nat.zero_add])
  have hndE : (eligIdxFrom ty 0 m.facilities).Nodup := eligIdxFrom_nodup ty _ 0
  constructor
  · -- add_resource
    simp only [managerAdd]
    rw [hg1, hg2]
    by_cases hc : (eligIdxFrom ty 0 m.facilities).isEmpty
    · rw [if_pos hc]
      have hE : eligIdxFrom ty 0 m.facilities = [] := by
        cases hE2 : eligIdxFrom ty 0 m.facilities
        · rfl
        · rw [hE2] at hc; cases hc
      have hel : specEligible m.facilities ty = [] := by
        rw [← hmapfull, hE]
        rfl
      show (0 : ℚ) = specAddTotal m.facilities ty a
      unfold specAddTotal
      rw [hel]
      rfl
    · rw [if_neg hc]
      show (greedyAddIdx ty
          (sortByKeyDesc (fun i => (getFac m.facilities i).availCap)
            (eligIdxFrom ty 0 m.facilities)) a m.facilities).1 = _
      have hperm := sortByKeyDesc_perm
        (fun i => (getFac m.facilities i).availCap) (eligIdxFrom ty 0 m.facilities)
      have hnds : (sortByKeyDesc (fun i => (getFac m.facilities i).availCap)
          (eligIdxFrom ty 0 m.facilities)).Nodup := hperm.nodup_iff.mpr hndE
      have haccs : ∀ i ∈ sortByKeyDesc (fun i => (getFac m.facilities i).availCap)
          (eligIdxFrom ty 0 m.facilities),
          managerAccepts (getFac m.facilities i).kind ty = true := by
        intro i hi
        exact haccfull i (hperm.mem_iff.mp hi)
      rw [greedyAddIdx_spec ty _ m.facilities a ha hnds haccs]
      unfold specAddTotal
      rw [sortByKeyDesc_map Facility.availCap (getFac m.facilities), hmapfull]
  · -- remove_resource
    simp only [managerRemove]
    rw [hg1, hg2]
    show (greedyRemoveIdx ty
        (sortByKeyDesc (fun i => (getFac m.facilities i).resources ty)
          (eligIdxFrom ty 0 m.facilities)) a m.facilities).1 = _
    have hperm := sortByKeyDesc_perm
      (fun i => (getFac m.facilities i).resources ty) (eligIdxFrom ty 0 m.facilities)
    have hnds : (sortByKeyDesc (fun i => (getFac m.facilities i).resources ty)
        (eligIdxFrom ty 0 m.facilities)).Nodup := hperm.nodup_iff.mpr hndE
    rw [greedyRemoveIdx_spec ty _ m.facilities a ha hnds
      (getFac_nonneg m.facilities ty hres)]
    unfold specRemoveTotal
    rw [sortByKeyDesc_map (fun f => f.resources ty) (getFac m.facilities), hmapfull]

/-- The C2 counterexample state: a stockpile and a warehouse, with a cache
for TREE built before the warehouse was added (so it lists only the
stockpile, index 0). Reachable by calling `add_resource(TREE, ...)`, then
`add_facility(warehouse)`. -/
def cexManager : Manager :=
  ⟨[Facility.mk0 .stockpile 800, Facility.mk0 .warehouse 2000],
   Function.update (fun _ => none) ResourceType.TREE (some [0])⟩

/-- C2 fails as stated: with a stale cache the manager does not consider
every facility whose accept policy admits the type. Adding 1000 TREE in
`cexManager` returns 800 (stockpile only), while the spec's algorithm over
the accept-policy-eligible facilities (stockpile and warehouse, warehouse
first with more available capacity) returns 1000. -/
theorem C2_counterexample :
    (managerAdd cexManager ResourceType.TREE 1000).1 ≠
      specAddTotal cexManager.facilities ResourceType.TREE 1000 := by
  have h1 : (managerAdd cexManager ResourceType.TREE 1000).1 = 800 := by
    norm_num [managerAdd, getFacilitiesFor, cexManager, Function.update_same,
      sortByKeyDesc, insertByKeyDesc, greedyAddIdx, getFac, List.getD,
      Facility.addResource, isRawResource, Facility.baseAdd, Facility.availCap,
      Facility.sumRes, allResourceTypes, Facility.mk0]
  have h2 : specAddTotal cexManager.facilities ResourceType.TREE 1000 = 1000 := by
    norm_num [specAddTotal, specEligible, cexManager, managerAccepts,
      isRawResource, List.filter, sortByKeyDesc, insertByKeyDesc,
      specGreedyAdd, Facility.availCap, Facility.sumRes, allResourceTypes,
      Facility.mk0]
  rw [h1, h2]
  norm_num

/-- A manager with one stockpile and a cold cache for the C2 witness. -/
def witnessManager : Manager := ⟨[Facility.mk0 .stockpile 800], fun _ => none⟩

/-- Witness for C2 (amended) at a concrete manager with a cold cache. -/
theorem C2_witness :
    (0 : ℚ) ≤ 100 ∧ cacheFresh witnessManager ResourceType.TREE ∧
    (∀ f ∈ witnessManager.facilities, 0 ≤ f.resources ResourceType.TREE) ∧
    ((managerAdd witnessManager ResourceType.TREE 100).1
        = specAddTotal witnessManager.facilities ResourceType.TREE 100 ∧
     (managerRemove witnessManager ResourceType.TREE 100).1
        = specRemoveTotal witnessManager.facilities ResourceType.TREE 100) := by
  have hres : ∀ f ∈ witnessManager.facilities,
      0 ≤ f.resources ResourceType.TREE := by
    intro f hf
    rcases List.mem_cons.mp hf with rfl | hf
    · norm_num [Facility.mk0]
    · cases hf
  refine ⟨by norm_num, Or.inl rfl, hres, ?_⟩
  exact C2_storageManager_allocation witnessManager ResourceType.TREE 100
    (by norm_num) (Or.inl rfl) hres

end Village
